import Mathlib

/-!
Verification of the nifty50-ma-bot trading script against its specification.

The Python source (src/nifty50_ma_bot.py) is shallowly embedded below:
prices are rationals, timestamps are natural numbers counting microseconds
since the epoch (mirroring Python datetime components), the per-tick body of
the websocket loop becomes an explicit step function over an explicit state,
and the external order gateway becomes an oracle record supplied per tick.
-/

def usPerSecond : ℕ := 1000000

def usPerMinute : ℕ := 60000000

/-- The `minute` component of a datetime, as Python reads `tick_time.minute`. -/
def minuteOfHour (t : ℕ) : ℕ := (t / usPerMinute) % 60

/-- The `second` component of a datetime. -/
def secondOfMinute (t : ℕ) : ℕ := (t / usPerSecond) % 60

/-- The `microsecond` component of a datetime. -/
def microsecondOf (t : ℕ) : ℕ := t % usPerSecond

/-- `candle_start` as computed at the top of `CandleAggregator.update`:
`tick_time - timedelta(minutes=tick_time.minute % interval, seconds=tick_time.second, microseconds=tick_time.microsecond)`. -/
def candleStart (interval : ℕ) (t : ℕ) : ℕ :=
  t - ((minuteOfHour t % interval) * usPerMinute
       + secondOfMinute t * usPerSecond
       + microsecondOf t)

/-- One OHLC candle, mirroring the dicts built in `CandleAggregator`. -/
structure Candle where
  timestamp : ℕ
  open_ : ℚ
  high : ℚ
  low : ℚ
  close : ℚ
deriving DecidableEq

/-- `max(p for _, p in data)` over a nonempty price list. -/
def listMax : List ℚ → ℚ
  | [] => 0
  | p :: ps => ps.foldl max p

/-- `min(p for _, p in data)` over a nonempty price list. -/
def listMin : List ℚ → ℚ
  | [] => 0
  | p :: ps => ps.foldl min p

/-- The candle dict built from `candle_data` when a candle is closed
(or when `get_candles_df` renders the open candle). -/
def mkCandle (start : ℕ) (data : List (ℕ × ℚ)) : Candle :=
  { timestamp := start
    open_ := (data.headD (0, 0)).2
    high := listMax (data.map Prod.snd)
    low := listMin (data.map Prod.snd)
    close := (data.getLastD (0, 0)).2 }

/-- The mutable state of `CandleAggregator`. -/
structure Aggregator where
  interval_minutes : ℕ
  current_candle_start : Option ℕ
  candle_data : List (ℕ × ℚ)
  completed_candles : List Candle
deriving DecidableEq

/-- `CandleAggregator.__init__(interval_minutes)`. -/
def initAgg (interval : ℕ) : Aggregator :=
  { interval_minutes := interval
    current_candle_start := none
    candle_data := []
    completed_candles := [] }

/-- `CandleAggregator.update(tick_time, price)`. -/
def Aggregator.update (s : Aggregator) (tick_time : ℕ) (price : ℚ) : Aggregator :=
  let cs := candleStart s.interval_minutes tick_time
  if s.current_candle_start = some cs then
    { s with candle_data := s.candle_data ++ [(tick_time, price)] }
  else
    { s with
      completed_candles :=
        if s.candle_data = [] then s.completed_candles
        else s.completed_candles
          ++ [mkCandle (s.current_candle_start.getD 0) s.candle_data]
      current_candle_start := some cs
      candle_data := [(tick_time, price)] }

/-- `CandleAggregator.get_candles_df()`: completed candles plus the current
incomplete candle, rendered as a list of rows. -/
def Aggregator.get_candles (s : Aggregator) : List Candle :=
  s.completed_candles
    ++ (if s.candle_data = [] then []
        else [mkCandle (s.current_candle_start.getD 0) s.candle_data])

/-- Feeding a sequence of ticks through `update`. -/
def ingest (s : Aggregator) (ticks : List (ℕ × ℚ)) : Aggregator :=
  ticks.foldl (fun a tp => a.update tp.1 tp.2) s

/-- Start timestamps of the completed candles. -/
def completedStarts (s : Aggregator) : List ℕ :=
  s.completed_candles.map Candle.timestamp

/-- Start timestamp of the most recently closed candle, if any. -/
def lastClosedTs (s : Aggregator) : Option ℕ :=
  (completedStarts s).getLast?

/-- Value of `series.rolling(window=w).mean()` at the last row: defined only
when at least `w` rows exist (pandas yields NaN otherwise, modelled as `none`). -/
def rollingMeanLast (w : ℕ) (xs : List ℚ) : Option ℚ :=
  if xs.length < w then none
  else some ((xs.drop (xs.length - w)).sum / (w : ℚ))

/-- The moving-average pair the bot computes: `ma_df = candles_df.iloc[:-1]`
followed by `rolling(10).mean()` / `rolling(21).mean()`, read at the last row. -/
def botMAs (candles : List Candle) : Option ℚ × Option ℚ :=
  (rollingMeanLast 10 (candles.dropLast.map Candle.close),
   rollingMeanLast 21 (candles.dropLast.map Candle.close))

/-- `last_candle['ma10'] >= last_candle['ma21']`, with NaN (missing) values
comparing false as in pandas. -/
def maCond (ma10 ma21 : Option ℚ) : Bool :=
  match ma10, ma21 with
  | some f, some s => f ≥ s
  | _, _ => false

/-- Outcome of the signal-evaluation portion of the tick loop
(lines 185-205): the insufficient-data branch, a pass with no crossover,
or a crossover signal carrying the last closed candle's start and close. -/
inductive EvalResult where
  | waiting
  | noSignal
  | signal (ts : ℕ) (close : ℚ)
deriving DecidableEq

/-- Signal evaluation exactly as the loop performs it: gate on
`len(candles_df) < 21`, drop the last row, take rolling means, compare at the
last completed candle. -/
def evalSignal (candles : List Candle) : EvalResult :=
  if candles.length < 21 then .waiting
  else
    match candles.dropLast.getLast? with
    | none => .noSignal
    | some last_candle =>
      if maCond (botMAs candles).1 (botMAs candles).2 then
        .signal last_candle.timestamp last_candle.close
      else .noSignal

/-- `round_to_nearest_strike(price, strike_interval)`: `int(price // k * k)`. -/
def round_to_nearest_strike (price : ℚ) (k : ℤ) : ℤ :=
  ⌊price / (k : ℚ)⌋ * k

/-- Python truthiness of an optional integer id (`if not option_id`). -/
def truthyN (o : Option ℕ) : Bool :=
  match o with
  | none => false
  | some n => n ≠ 0

/-- Python truthiness of an optional float (`if bought_option_id and entry_price and sl_price`). -/
def truthyQ (o : Option ℚ) : Bool :=
  match o with
  | none => false
  | some q => q ≠ 0

/-- The loop-local position/trade variables of `trading_bot` plus the
aggregator it owns. -/
structure BotState where
  agg : Aggregator
  traded_candle : Option ℕ
  bought_option_id : Option ℕ
  entry_price : Option ℚ
  sl_price : Option ℚ
  max_price : Option ℚ
deriving DecidableEq

/-- `trading_bot`'s initial state (lines 141-147), interval 5 minutes. -/
def initState : BotState :=
  { agg := initAgg 5
    traded_candle := none
    bought_option_id := none
    entry_price := none
    sl_price := none
    max_price := none }

/-- Orders submitted through `dhan.place_order`. -/
inductive Order where
  | buy (security_id : ℕ) (quantity : ℕ)
  | sell (security_id : ℕ) (quantity : ℕ)
deriving DecidableEq

/-- Operator-visible failures reported through `status_box.error`. -/
inductive ErrEvent where
  | optionNotFound
  | buyFailed
  | quoteFailed
  | sellFailed
deriving DecidableEq

/-- Per-tick responses of the external order gateway: the option-chain lookup
(`find_deep_itm_ce`, by strike), and the results of a live buy, quote fetch
and sell (`none` models a raised exception / rejection). -/
structure Env where
  resolve : ℤ → Option ℕ
  buyFill : Option ℚ
  quoteLtp : Option ℚ
  sellFill : Option ℚ

/-- Everything one iteration of the tick loop produces: the new state, the
orders submitted to the gateway, the surfaced errors, the candle start of an
entry fill (if one happened), and exit fill prices logged. -/
structure StepOut where
  state : BotState
  orders : List Order
  errors : List ErrEvent
  entry_at : Option ℕ
  exits : List ℚ

/-- Lines 262-264: `if ltp > max_price: max_price = ltp; sl_price = max(sl_price, max_price * 0.95)`. -/
def trailingStep (pk sl q : ℚ) : ℚ × ℚ :=
  if q > pk then (q, max sl (q * (95 / 100))) else (pk, sl)

/-- The entry block (lines 205-245): on a crossover, resolve the deep ITM
call and buy (simulated in paper mode).  Returns the new state, emitted
orders and errors, the entry candle start, and whether the loop `continue`d
(skipping trailing-stop management for this tick). -/
def entryPhase (paper : Bool) (lot : ℕ) (env : Env) (st : BotState)
    (last_candle : Candle) (ma10 ma21 : Option ℚ) :
    BotState × List Order × List ErrEvent × Option ℕ × Bool :=
  if maCond ma10 ma21 then
    let spot := last_candle.close
    let atm_strike := round_to_nearest_strike spot 50
    let deep_itm_strike := atm_strike - 200
    match env.resolve deep_itm_strike with
    | none => (st, [], [.optionNotFound], none, true)
    | some oid =>
      if oid = 0 then (st, [], [.optionNotFound], none, true)
      else if paper then
        ({ st with
            traded_candle := some last_candle.timestamp
            bought_option_id := some oid
            entry_price := some spot
            sl_price := some (spot * (95 / 100))
            max_price := some spot }, [], [], some last_candle.timestamp, false)
      else
        match env.buyFill with
        | none => (st, [Order.buy oid lot], [.buyFailed], none, true)
        | some fill =>
          ({ st with
              traded_candle := some last_candle.timestamp
              bought_option_id := some oid
              entry_price := some fill
              sl_price := some (fill * (95 / 100))
              max_price := some fill }, [Order.buy oid lot], [], some last_candle.timestamp, false)
  else (st, [], [], none, false)

/-- The trailing stop-loss block (lines 248-296): fetch or simulate the
option LTP, ratchet peak and stop, and exit when the stop is hit.  Note that
the position variables are reset unconditionally after a stop-loss trigger,
whether or not the live sell order succeeded. -/
def trailingPhase (paper : Bool) (lot : ℕ) (env : Env) (st : BotState) :
    BotState × List Order × List ErrEvent × List ℚ :=
  if truthyN st.bought_option_id && truthyQ st.entry_price && truthyQ st.sl_price then
    let entry := st.entry_price.getD 0
    let mx0 := st.max_price.getD 0
    let ltpRes : Option ℚ :=
      if paper then some (if mx0 < entry * (102 / 100) then mx0 + 1 else mx0 - 1)
      else env.quoteLtp
    match ltpRes with
    | none => (st, [], [.quoteFailed], [])
    | some ltp =>
      let ms := trailingStep mx0 (st.sl_price.getD 0) ltp
      let st1 := { st with max_price := some ms.1, sl_price := some ms.2 }
      if ltp ≤ ms.2 then
        if paper then
          ({ st1 with bought_option_id := none, entry_price := none,
                      sl_price := none, max_price := none }, [], [], [ltp])
        else
          match env.sellFill with
          | none =>
            ({ st1 with bought_option_id := none, entry_price := none,
                        sl_price := none, max_price := none },
             [Order.sell (st.bought_option_id.getD 0) lot], [.sellFailed], [])
          | some fill =>
            ({ st1 with bought_option_id := none, entry_price := none,
                        sl_price := none, max_price := none },
             [Order.sell (st.bought_option_id.getD 0) lot], [], [fill])
      else (st1, [], [], [])
  else (st, [], [], [])

/-- One full iteration of the per-tick loop body (lines 183-296). -/
def processTick (paper : Bool) (lot : ℕ) (env : Env) (st0 : BotState)
    (t : ℕ) (p : ℚ) : StepOut :=
  let st : BotState := { st0 with agg := st0.agg.update t p }
  let candles := st.agg.get_candles
  if candles.length < 21 then ⟨st, [], [], none, []⟩
  else
    match candles.dropLast.getLast? with
    | none => ⟨st, [], [], none, []⟩
    | some last_candle =>
      let mas := botMAs candles
      if st.traded_candle = some last_candle.timestamp then ⟨st, [], [], none, []⟩
      else
        let er := entryPhase paper lot env st last_candle mas.1 mas.2
        if er.2.2.2.2 then ⟨er.1, er.2.1, er.2.2.1, er.2.2.2.1, []⟩
        else
          let tr := trailingPhase paper lot env er.1
          ⟨tr.1, er.2.1 ++ tr.2.1, er.2.2.1 ++ tr.2.2.1, er.2.2.2.1, tr.2.2.2⟩

/-- One inbound tick together with the gateway's responses during its
processing. -/
structure TickIn where
  t : ℕ
  p : ℚ
  env : Env

/-- Accumulated observable history of a run. -/
structure RunOut where
  state : BotState
  orders : List Order
  entries : List ℕ

/-- Process one tick inside a run, accumulating orders and entry events. -/
def runStep (paper : Bool) (lot : ℕ) (r : RunOut) (i : TickIn) : RunOut :=
  let o := processTick paper lot i.env r.state i.t i.p
  { state := o.state
    orders := r.orders ++ o.orders
    entries := r.entries ++ (match o.entry_at with | none => [] | some ts => [ts]) }

/-- A whole run of `trading_bot`'s tick loop from a given state. -/
def runBot (paper : Bool) (lot : ℕ) (st : BotState) (ins : List TickIn) : RunOut :=
  ins.foldl (runStep paper lot) ⟨st, [], []⟩

/-- Peak/stop pair after an entry fill at `entry` followed by the processed
quotes `qs`: at entry `max_price = entry`, `sl_price = entry * 0.95`
(lines 244-245), then each quote is folded through `trailingStep`. -/
def trailRun (entry : ℚ) (qs : List ℚ) : ℚ × ℚ :=
  qs.foldl (fun ms q => trailingStep ms.1 ms.2 q) (entry, entry * (95 / 100))

/-- Structural invariant of the 5-minute aggregator: every stored start
timestamp is a truncated (interval-aligned) timestamp, and an open candle
always has a start recorded. -/
def Aligned5 (s : Aggregator) : Prop :=
  s.interval_minutes = 5
  ∧ (∀ c, s.current_candle_start = some c → ∃ u, c = candleStart 5 u)
  ∧ (s.candle_data ≠ [] → s.current_candle_start ≠ none)
  ∧ (∀ cd ∈ s.completed_candles, ∃ u, cd.timestamp = candleStart 5 u)

/-- Running invariant of the tick loop's aggregator after processing a
(nondecreasing) tick whose timestamp is `t`: the open candle starts at the
aligned start of `t`, and all stored starts are strictly increasing, the
open candle's start strictly above every closed one. -/
def AggInv5 (s : Aggregator) (t : ℕ) : Prop :=
  s.interval_minutes = 5
  ∧ s.current_candle_start = some (candleStart 5 t)
  ∧ s.candle_data ≠ []
  ∧ List.Pairwise (· < ·) (completedStarts s ++ [candleStart 5 t])

/-- Direct recomputation of the arithmetic mean of the last `k` values. -/
def meanOfLast (k : ℕ) (xs : List ℚ) : ℚ := (xs.drop (xs.length - k)).sum / (k : ℚ)

/-- A flat tape: `n` ticks priced 100, one per 5-minute window. -/
def flatTicks (n : ℕ) : List (ℕ × ℚ) :=
  (List.range n).map (fun k => (k * 300000000, 100))

/-- Gateway oracle that resolves nothing and fails every call. -/
def defaultEnv : Env :=
  { resolve := fun _ => none, buyFill := none, quoteLtp := none, sellFill := none }

/-- A bot state holding a position (option 7, entry 40, stop 38, peak 40)
over a tape of 20 closed candles. -/
def c1state : BotState :=
  { agg := ingest (initAgg 5) (flatTicks 21)
    traded_candle := none
    bought_option_id := some 7
    entry_price := some 40
    sl_price := some 38
    max_price := some 40 }

/-- Gateway oracle for the failed-exit scenario: the quote 37 trips the stop
(37 ≤ 38) and the market sell order raises. -/
def c1env : Env :=
  { resolve := fun _ => none, buyFill := none, quoteLtp := some 37, sellFill := none }

/-- A signal candle literal used by entry-block witnesses. -/
def wCandle : Candle := { timestamp := 0, open_ := 100, high := 100, low := 100, close := 100 }

/-- Gateway oracle that resolves option id 7 and fails everything else. -/
def wEnv : Env :=
  { resolve := fun _ => some 7, buyFill := none, quoteLtp := none, sellFill := none }

/-- Running invariant of a whole bot run whose last processed tick time is
`t`: the aggregator invariant holds, the recorded entry candle-starts are
strictly increasing, the traded-candle marker is exactly the last entry, and
every entry start is bounded by the last closed candle's start. -/
def RunInv (r : RunOut) (t : ℕ) : Prop :=
  AggInv5 r.state.agg t
  ∧ List.Pairwise (· < ·) r.entries
  ∧ r.state.traded_candle = r.entries.getLast?
  ∧ (∀ e ∈ r.entries, ∃ b, lastClosedTs r.state.agg = some b ∧ e ≤ b)

/-- Modelled from the spec: the repository has no StatePersistence component
(the bot keeps all state in process memory), so the persisted-position record
of section 6 is modelled from the spec's words. -/
structure Position where
  optionId : ℕ
  entryPrice : ℚ
  peakPrice : ℚ
  stopPrice : ℚ
  quantity : ℕ
deriving DecidableEq

/-- Modelled from the spec: the persisted BotState snapshot — candle
sequence, optional position, and traded-candle marker. -/
structure BotSnapshot where
  candles : List Candle
  position : Option Position
  lastTradedCandleStart : Option ℕ
deriving DecidableEq

/-- Modelled from the spec: a JSON-shaped value for the durable snapshot. -/
inductive JVal where
  | null
  | num (q : ℚ)
  | arr (elems : List JVal)
  | obj (fields : List (String × JVal))

/-- Modelled from the spec: natural numbers (timestamps, ids, quantities)
are stored as JSON numbers and validated on read. -/
def encNat (n : ℕ) : JVal := .num (n : ℚ)

/-- Modelled from the spec: read back a stored natural number. -/
def decNat : JVal → Option ℕ
  | .num q => if 0 ≤ q.num ∧ q.den = 1 then some q.num.toNat else none
  | _ => none

/-- Modelled from the spec: a candle row `{start, open, high, low, close}`. -/
def encCandle (c : Candle) : JVal :=
  .obj [("start", encNat c.timestamp), ("open", .num c.open_), ("high", .num c.high),
        ("low", .num c.low), ("close", .num c.close)]

/-- Modelled from the spec: read back one candle row. -/
def decCandle : JVal → Option Candle
  | .obj [("start", sv), ("open", .num o), ("high", .num h),
          ("low", .num l), ("close", .num c)] => do
      let ts ← decNat sv
      some { timestamp := ts, open_ := o, high := h, low := l, close := c }
  | _ => none

/-- Modelled from the spec: the position record
`{optionId, entryPrice, peakPrice, stopPrice, quantity}`. -/
def encPos (p : Position) : JVal :=
  .obj [("optionId", encNat p.optionId), ("entryPrice", .num p.entryPrice),
        ("peakPrice", .num p.peakPrice), ("stopPrice", .num p.stopPrice),
        ("quantity", encNat p.quantity)]

/-- Modelled from the spec: read back a position record. -/
def decPos : JVal → Option Position
  | .obj [("optionId", ov), ("entryPrice", .num e), ("peakPrice", .num pk),
          ("stopPrice", .num sp), ("quantity", qv)] => do
      let oid ← decNat ov
      let q ← decNat qv
      some { optionId := oid, entryPrice := e, peakPrice := pk, stopPrice := sp, quantity := q }
  | _ => none

/-- Modelled from the spec: read back the stored candle array, validating
every element. -/
def decCandles : List JVal → Option (List Candle)
  | [] => some []
  | v :: vs => do
      let c ← decCandle v
      let cs ← decCandles vs
      some (c :: cs)

/-- Modelled from the spec: the complete snapshot object
`{candles, position | null, lastTradedCandleStart | null}`. -/
def encSnapshot (s : BotSnapshot) : JVal :=
  .obj [("candles", .arr (s.candles.map encCandle)),
        ("position", match s.position with | none => .null | some p => encPos p),
        ("lastTradedCandleStart",
          match s.lastTradedCandleStart with | none => .null | some t => encNat t)]

/-- Modelled from the spec: read back a complete snapshot, validating every
field. -/
def decSnapshot : JVal → Option BotSnapshot
  | .obj [("candles", .arr cs), ("position", pv), ("lastTradedCandleStart", lv)] => do
      let candles ← decCandles cs
      let pos ← (match pv with | .null => some none | v => (decPos v).map some)
      let ltc ← (match lv with | .null => some none | v => (decNat v).map some)
      some { candles := candles, position := pos, lastTradedCandleStart := ltc }
  | _ => none

/-- Modelled from the spec: `save(BotState)` atomically replaces the durable
store's contents with a fresh complete snapshot. -/
def save (_store : Option JVal) (s : BotSnapshot) : Option JVal :=
  some (encSnapshot s)

/-- Modelled from the spec: `load()` returns the most recent valid snapshot,
or absent if none exists. -/
def load (store : Option JVal) : Option BotSnapshot :=
  store.bind decSnapshot

/-- Modelled from the spec: a store to which nothing was ever written. -/
def emptyStore : Option JVal := none

theorem update_same_window (s : Aggregator) (t : ℕ) (p : ℚ)
    (h : s.current_candle_start = some (candleStart s.interval_minutes t)) :
    s.update t p = { s with candle_data := s.candle_data ++ [(t, p)] } := by
  unfold Aggregator.update
  rw [if_pos h]

theorem update_new_window (s : Aggregator) (t : ℕ) (p : ℚ)
    (h : s.current_candle_start ≠ some (candleStart s.interval_minutes t)) :
    s.update t p =
      { s with
        completed_candles :=
          if s.candle_data = [] then s.completed_candles
          else s.completed_candles
            ++ [mkCandle (s.current_candle_start.getD 0) s.candle_data]
        current_candle_start := some (candleStart s.interval_minutes t)
        candle_data := [(t, p)] } := by
  unfold Aggregator.update
  rw [if_neg h]

theorem update_data_ne_nil (s : Aggregator) (t : ℕ) (p : ℚ) :
    (s.update t p).candle_data ≠ [] := by
  by_cases h : s.current_candle_start = some (candleStart s.interval_minutes t)
  · rw [update_same_window s t p h]
    simp
  · rw [update_new_window s t p h]
    simp

theorem update_first (I : ℕ) (t : ℕ) (p : ℚ) :
    (initAgg I).update t p
      = { interval_minutes := I, current_candle_start := some (candleStart I t),
          candle_data := [(t, p)], completed_candles := [] } := by
  rw [update_new_window _ t p (by simp [initAgg])]
  simp [initAgg]

theorem get_candles_of_ne (s : Aggregator) (h : s.candle_data ≠ []) :
    s.get_candles
      = s.completed_candles
        ++ [mkCandle (s.current_candle_start.getD 0) s.candle_data] := by
  unfold Aggregator.get_candles
  rw [if_neg h]

theorem ingest_cons (s : Aggregator) (tp : ℕ × ℚ) (rest : List (ℕ × ℚ)) :
    ingest s (tp :: rest) = ingest (s.update tp.1 tp.2) rest := rfl

theorem ingest_nil (s : Aggregator) : ingest s [] = s := rfl

/-- Folding same-window ticks into an already-open candle only appends to
`candle_data`. -/
theorem ingest_same_window_aux (I : ℕ) (c : ℕ) (rest : List (ℕ × ℚ))
    (h : ∀ tp ∈ rest, candleStart I tp.1 = c)
    (d : List (ℕ × ℚ)) (C : List Candle) :
    ingest { interval_minutes := I, current_candle_start := some c,
             candle_data := d, completed_candles := C } rest
      = { interval_minutes := I, current_candle_start := some c,
          candle_data := d ++ rest, completed_candles := C } := by
  induction rest generalizing d with
  | nil => simp [ingest]
  | cons tp rest ih =>
    rw [ingest_cons]
    have hc : candleStart I tp.1 = c := h tp (by simp)
    rw [update_same_window _ tp.1 tp.2 (by simp [hc])]
    simp only []
    rw [ih (fun x hx => h x (by simp [hx])) (d ++ [tp])]
    simp

theorem getLastD_snd (l : List (ℕ × ℚ)) (d : ℕ × ℚ) :
    (l.getLastD d).2 = (l.map Prod.snd).getLastD d.2 := by
  induction l generalizing d with
  | nil => rfl
  | cons a l ih => rw [List.getLastD_cons, List.map_cons, List.getLastD_cons, ih]

/-- Claim C5: a nonempty tick sequence lying inside a single interval window
produces exactly one (still open) candle whose open is the first tick's
price, whose high/low are the extreme tick prices, and whose close is the
last tick's price. -/
theorem single_window_candle (I : ℕ) (t0 : ℕ) (p0 : ℚ)
    (rest : List (ℕ × ℚ))
    (hsame : ∀ tp ∈ rest, candleStart I tp.1 = candleStart I t0) :
    (ingest (initAgg I) ((t0, p0) :: rest)).completed_candles = []
    ∧ (ingest (initAgg I) ((t0, p0) :: rest)).get_candles
        = [{ timestamp := candleStart I t0
             open_ := p0
             high := listMax (p0 :: rest.map Prod.snd)
             low := listMin (p0 :: rest.map Prod.snd)
             close := (p0 :: rest.map Prod.snd).getLastD 0 }] := by
  rw [ingest_cons, update_first]
  rw [ingest_same_window_aux I (candleStart I t0) rest hsame [(t0, p0)] []]
  refine ⟨rfl, ?_⟩
  rw [get_candles_of_ne _ (by simp)]
  simp only [List.nil_append, List.singleton_append, Option.getD_some, mkCandle,
    List.headD_cons, List.map_cons, getLastD_snd]

/-- Witness for C5: the spec scenario — ticks priced 100, 101, 99, 102 within
one 5-minute window yield the candle with open 100, high 102, low 99,
close 102. -/
theorem single_window_candle_witness :
    (∀ tp ∈ ([(60000000, 101), (120000000, 99), (180000000, 102)] :
        List (ℕ × ℚ)), candleStart 5 tp.1 = candleStart 5 0)
    ∧ (ingest (initAgg 5)
        [(0, 100), (60000000, 101), (120000000, 99), (180000000, 102)]).get_candles
      = [{ timestamp := 0, open_ := 100, high := 102, low := 99, close := 102 }] := by
  refine ⟨by decide, ?_⟩
  have h := single_window_candle 5 0 100
    [(60000000, 101), (120000000, 99), (180000000, 102)] (by decide)
  rw [h.2]
  decide

/-- With the bot's configured 5-minute interval, the truncation of minute
remainder, seconds and microseconds is exactly flooring to a 300-second
boundary. -/
theorem candleStart5 (t : ℕ) : candleStart 5 t = 300000000 * (t / 300000000) := by
  unfold candleStart minuteOfHour secondOfMinute microsecondOf usPerMinute usPerSecond
  omega

theorem candleStart5_mod (t : ℕ) : candleStart 5 t % 300000000 = 0 := by
  rw [candleStart5]
  exact Nat.mul_mod_right _ _

theorem candleStart5_mono {t t' : ℕ} (h : t ≤ t') :
    candleStart 5 t ≤ candleStart 5 t' := by
  rw [candleStart5, candleStart5]
  exact Nat.mul_le_mul_left _ (Nat.div_le_div_right h)

theorem aligned5_init : Aligned5 (initAgg 5) := by
  refine ⟨rfl, ?_, ?_, ?_⟩ <;> simp [initAgg]

theorem aligned5_update (s : Aggregator) (t : ℕ) (p : ℚ)
    (h : Aligned5 s) : Aligned5 (s.update t p) := by
  obtain ⟨hI, hcur, hne, hcd⟩ := h
  by_cases hc : s.current_candle_start = some (candleStart s.interval_minutes t)
  · rw [update_same_window s t p hc]
    exact ⟨hI, hcur, by simp [hc], hcd⟩
  · rw [update_new_window s t p hc]
    refine ⟨hI, ?_, by simp, ?_⟩
    · intro c h2
      simp only [Option.some.injEq] at h2
      exact ⟨t, by rw [← h2, hI]⟩
    · intro cd hcd2
      by_cases hd : s.candle_data = []
      · rw [if_pos hd] at hcd2
        exact hcd cd hcd2
      · rw [if_neg hd] at hcd2
        simp only [List.mem_append, List.mem_singleton] at hcd2
        rcases hcd2 with h2 | h2
        · exact hcd cd h2
        · subst h2
          obtain ⟨c, hc2⟩ := Option.ne_none_iff_exists'.mp (hne hd)
          obtain ⟨u, hu⟩ := hcur c hc2
          exact ⟨u, by simp [mkCandle, hc2, hu]⟩

theorem aligned5_ingest (ticks : List (ℕ × ℚ)) (s : Aggregator)
    (h : Aligned5 s) : Aligned5 (ingest s ticks) := by
  induction ticks generalizing s with
  | nil => exact h
  | cons tp rest ih => exact ih _ (aligned5_update s tp.1 tp.2 h)

/-- A single `update` only ever appends to the completed-candle list. -/
theorem update_completed_extends (s : Aggregator) (t : ℕ) (p : ℚ) :
    ∃ tail, (s.update t p).completed_candles = s.completed_candles ++ tail := by
  by_cases hc : s.current_candle_start = some (candleStart s.interval_minutes t)
  · rw [update_same_window s t p hc]
    exact ⟨[], by simp⟩
  · rw [update_new_window s t p hc]
    by_cases hd : s.candle_data = []
    · exact ⟨[], by simp [hd]⟩
    · exact ⟨[mkCandle (s.current_candle_start.getD 0) s.candle_data], by simp [hd]⟩

/-- Ingesting any further ticks only ever appends to the completed-candle
list: a closed candle is never mutated. -/
theorem ingest_completed_extends (more : List (ℕ × ℚ)) (s : Aggregator) :
    ∃ tail, (ingest s more).completed_candles = s.completed_candles ++ tail := by
  induction more generalizing s with
  | nil => exact ⟨[], by simp [ingest]⟩
  | cons tp rest ih =>
    rw [ingest_cons]
    obtain ⟨tail1, h1⟩ := update_completed_extends s tp.1 tp.2
    obtain ⟨tail2, h2⟩ := ih (s.update tp.1 tp.2)
    exact ⟨tail1 ++ tail2, by rw [h2, h1, List.append_assoc]⟩

theorem aggInv_first (t : ℕ) (p : ℚ) : AggInv5 ((initAgg 5).update t p) t := by
  rw [update_first]
  exact ⟨rfl, rfl, by simp, by simp [completedStarts]⟩

theorem aggInv_update (s : Aggregator) (t t' : ℕ) (p : ℚ)
    (h : AggInv5 s t) (hle : t ≤ t') : AggInv5 (s.update t' p) t' := by
  obtain ⟨hI, hcur, hdata, hpw⟩ := h
  by_cases heq : candleStart 5 t' = candleStart 5 t
  · have hc : s.current_candle_start = some (candleStart s.interval_minutes t') := by
      rw [hI, heq, hcur]
    rw [update_same_window s t' p hc]
    refine ⟨hI, by rw [hcur, heq], by simp, ?_⟩
    simpa [completedStarts, heq] using hpw
  · have hlt : candleStart 5 t < candleStart 5 t' :=
      lt_of_le_of_ne (candleStart5_mono hle) (fun h2 => heq h2.symm)
    have hc : s.current_candle_start ≠ some (candleStart s.interval_minutes t') := by
      rw [hI, hcur]
      intro h2
      simp only [Option.some.injEq] at h2
      exact heq h2.symm
    rw [update_new_window s t' p hc]
    refine ⟨hI, by rw [hI], by simp, ?_⟩
    rw [if_neg hdata]
    have hts : (mkCandle (s.current_candle_start.getD 0) s.candle_data).timestamp
        = candleStart 5 t := by simp [mkCandle, hcur]
    simp only [completedStarts] at hpw
    simp only [completedStarts, List.map_append, List.map_cons, List.map_nil, hts]
    rw [List.pairwise_append]
    refine ⟨hpw, by simp, ?_⟩
    intro a ha b hb
    simp only [List.mem_singleton] at hb
    subst hb
    rw [List.pairwise_append] at hpw
    obtain ⟨hp1, _, hp3⟩ := hpw
    simp only [List.mem_append, List.mem_singleton] at ha
    rcases ha with ha | ha
    · exact lt_trans (hp3 a ha (candleStart 5 t) (by simp)) hlt
    · rw [ha]
      exact hlt

theorem aggInv_ingest (ticks : List (ℕ × ℚ)) (s : Aggregator) (t : ℕ)
    (h : AggInv5 s t) (hch : List.Chain' (· ≤ ·) (t :: ticks.map Prod.fst)) :
    ∃ t1, AggInv5 (ingest s ticks) t1 := by
  induction ticks generalizing s t with
  | nil => exact ⟨t, h⟩
  | cons tp rest ih =>
    rw [ingest_cons]
    rw [List.map_cons, List.chain'_cons] at hch
    exact ih (s.update tp.1 tp.2) tp.1 (aggInv_update s t tp.1 tp.2 h hch.1)
      (by simpa using hch.2)

/-- Counterexample to claim C6 as stated: a tick sequence whose timestamps go
backwards produces closed candles whose start timestamps are not strictly
increasing (the aggregator closes and re-opens windows on any boundary
change, in either direction). -/
theorem c6_counterexample :
    completedStarts (ingest (initAgg 5) [(600000000, 1), (0, 2), (600000000, 3)])
        = [600000000, 0]
    ∧ ¬ List.Pairwise (· < ·)
        (completedStarts (ingest (initAgg 5) [(600000000, 1), (0, 2), (600000000, 3)])) := by
  constructor
  · decide
  · intro h
    rw [show completedStarts (ingest (initAgg 5) [(600000000, 1), (0, 2), (600000000, 3)])
          = [600000000, 0] from by decide] at h
    rw [List.pairwise_cons] at h
    exact absurd (h.1 0 (by simp)) (by decide)

/-- Claim C6 (amended): over any ingested tick sequence, every stored candle
start (closed or open) is aligned to the configured 5-minute boundary, and
closed candles are never mutated by later ingests (the closed list is
append-only); if additionally the tick timestamps are nondecreasing, the
closed-candle starts are strictly increasing. -/
theorem c6_closed_candle_invariants (ticks more : List (ℕ × ℚ)) :
    (∀ cd ∈ (ingest (initAgg 5) ticks).completed_candles, cd.timestamp % 300000000 = 0)
    ∧ (∀ c, (ingest (initAgg 5) ticks).current_candle_start = some c →
        c % 300000000 = 0)
    ∧ (∃ tail, (ingest (ingest (initAgg 5) ticks) more).completed_candles
        = (ingest (initAgg 5) ticks).completed_candles ++ tail)
    ∧ (List.Chain' (· ≤ ·) (ticks.map Prod.fst) →
        List.Pairwise (· < ·) (completedStarts (ingest (initAgg 5) ticks))) := by
  obtain ⟨_, hcur, _, hcd⟩ := aligned5_ingest ticks (initAgg 5) aligned5_init
  refine ⟨?_, ?_, ingest_completed_extends more _, ?_⟩
  · intro cd h
    obtain ⟨u, hu⟩ := hcd cd h
    rw [hu]
    exact candleStart5_mod u
  · intro c h
    obtain ⟨u, hu⟩ := hcur c h
    rw [hu]
    exact candleStart5_mod u
  · intro hch
    cases ticks with
    | nil => simp [ingest, initAgg, completedStarts]
    | cons tp rest =>
      rw [ingest_cons]
      rw [List.map_cons] at hch
      obtain ⟨t1, hinv⟩ :=
        aggInv_ingest rest _ tp.1 (aggInv_first tp.1 tp.2) hch
      exact (List.pairwise_append.mp hinv.2.2.2).1

/-- Witness for C6: on an in-order tick sequence spanning three 5-minute
windows, the closed-candle starts are strictly increasing and aligned. -/
theorem c6_witness :
    List.Chain' (· ≤ ·)
      (([(0, 100), (310000000, 101), (620000000, 99)] : List (ℕ × ℚ)).map Prod.fst)
    ∧ List.Pairwise (· < ·)
        (completedStarts (ingest (initAgg 5) [(0, 100), (310000000, 101), (620000000, 99)]))
    ∧ (∀ cd ∈ (ingest (initAgg 5)
          ([(0, 100), (310000000, 101), (620000000, 99)] : List (ℕ × ℚ))).completed_candles,
        cd.timestamp % 300000000 = 0) := by
  have h := c6_closed_candle_invariants [(0, 100), (310000000, 101), (620000000, 99)] []
  have hch : List.Chain' (· ≤ ·)
      (([(0, 100), (310000000, 101), (620000000, 99)] : List (ℕ × ℚ)).map Prod.fst) := by
    norm_num [List.chain'_cons]
  exact ⟨hch, h.2.2.2 hch, h.1⟩

theorem trailingStep_inv (pk sl q : ℚ) (h1 : 0 ≤ pk) (h2 : sl ≤ pk) :
    0 ≤ (trailingStep pk sl q).1 ∧ (trailingStep pk sl q).2 ≤ (trailingStep pk sl q).1 := by
  unfold trailingStep
  split
  · rename_i hq
    have hq0 : 0 ≤ q := le_of_lt (lt_of_le_of_lt h1 hq)
    exact ⟨hq0, max_le (le_trans h2 (le_of_lt hq)) (by linarith)⟩
  · exact ⟨h1, h2⟩

theorem trailingStep_mono (pk sl q : ℚ) :
    pk ≤ (trailingStep pk sl q).1 ∧ sl ≤ (trailingStep pk sl q).2 := by
  unfold trailingStep
  split
  · rename_i hq
    exact ⟨le_of_lt hq, le_max_left _ _⟩
  · exact ⟨le_refl _, le_refl _⟩

theorem trailFold_inv (qs : List ℚ) (ms : ℚ × ℚ) (h1 : 0 ≤ ms.1) (h2 : ms.2 ≤ ms.1) :
    0 ≤ (qs.foldl (fun ms q => trailingStep ms.1 ms.2 q) ms).1
    ∧ (qs.foldl (fun ms q => trailingStep ms.1 ms.2 q) ms).2
        ≤ (qs.foldl (fun ms q => trailingStep ms.1 ms.2 q) ms).1 := by
  induction qs generalizing ms with
  | nil => exact ⟨h1, h2⟩
  | cons q qs ih =>
    simp only [List.foldl_cons]
    obtain ⟨g1, g2⟩ := trailingStep_inv ms.1 ms.2 q h1 h2
    exact ih _ g1 g2

theorem trailRun_append (entry q : ℚ) (qs : List ℚ) :
    trailRun entry (qs ++ [q])
      = trailingStep (trailRun entry qs).1 (trailRun entry qs).2 q := by
  unfold trailRun
  rw [List.foldl_append]
  rfl

/-- Claim C2: for a position opened at a nonnegative fill price, the peak
starts at the entry price and the stop at 95% of it; both are non-decreasing
under every processed quote, the stop never exceeds the peak, and a quote
above the peak sets the peak to the quote and the stop to
`max(stop, quote * 0.95)`. -/
theorem c2_trailing_stop (entry q : ℚ) (qs : List ℚ) (he : 0 ≤ entry) :
    (trailRun entry []).1 = entry
    ∧ (trailRun entry []).2 = entry * (95 / 100)
    ∧ (trailRun entry qs).2 ≤ (trailRun entry qs).1
    ∧ (trailRun entry qs).1 ≤ (trailRun entry (qs ++ [q])).1
    ∧ (trailRun entry qs).2 ≤ (trailRun entry (qs ++ [q])).2
    ∧ (q > (trailRun entry qs).1 →
        (trailRun entry (qs ++ [q])).1 = q
        ∧ (trailRun entry (qs ++ [q])).2
            = max ((trailRun entry qs).2) (q * (95 / 100))) := by
  have hinv := trailFold_inv qs (entry, entry * (95 / 100)) he (by linarith)
  refine ⟨rfl, rfl, hinv.2, ?_, ?_, ?_⟩
  · rw [trailRun_append]
    exact (trailingStep_mono _ _ q).1
  · rw [trailRun_append]
    exact (trailingStep_mono _ _ q).2
  · intro hq
    rw [trailRun_append]
    unfold trailingStep
    rw [if_pos hq]
    exact ⟨rfl, rfl⟩

/-- Witness for C2: the spec scenario — entry fill at 40 sets the stop to 38
and the peak to 40; a quote of 50 ratchets the peak to 50 and the stop to
`max(38, 47.5)`. -/
theorem c2_trailing_stop_witness :
    (0:ℚ) ≤ 40
    ∧ (trailRun 40 []).1 = 40
    ∧ (trailRun 40 []).2 = 40 * (95 / 100)
    ∧ ((50:ℚ) > (trailRun 40 []).1)
    ∧ (trailRun 40 ([] ++ [50])).1 = 50
    ∧ (trailRun 40 ([] ++ [50])).2 = max ((trailRun 40 []).2) (50 * (95 / 100)) := by
  have h := c2_trailing_stop 40 50 [] (by norm_num)
  have hq : (50:ℚ) > (trailRun 40 []).1 := by
    rw [h.1]
    norm_num
  exact ⟨by norm_num, h.1, h.2.1, hq, (h.2.2.2.2.2 hq).1, (h.2.2.2.2.2 hq).2⟩

theorem maCond_none (x : Option ℚ) : maCond x none = false := by
  cases x <;> rfl

/-- Exhaustive description of the entry block's outcomes. -/
theorem entryPhase_cases (paper : Bool) (lot : ℕ) (env : Env) (st : BotState)
    (lc : Candle) (ma10 ma21 : Option ℚ) :
    (entryPhase paper lot env st lc ma10 ma21 = (st, [], [], none, false)
      ∧ maCond ma10 ma21 = false)
    ∨ entryPhase paper lot env st lc ma10 ma21 = (st, [], [.optionNotFound], none, true)
    ∨ (∃ oid, paper = false
        ∧ entryPhase paper lot env st lc ma10 ma21
            = (st, [Order.buy oid lot], [.buyFailed], none, true))
    ∨ (∃ oid fill, oid ≠ 0
        ∧ maCond ma10 ma21 = true
        ∧ entryPhase paper lot env st lc ma10 ma21
            = ({ st with
                  traded_candle := some lc.timestamp
                  bought_option_id := some oid
                  entry_price := some fill
                  sl_price := some (fill * (95 / 100))
                  max_price := some fill },
               if paper then [] else [Order.buy oid lot], [], some lc.timestamp, false)
        ∧ (paper = true → fill = lc.close)) := by
  by_cases hma : maCond ma10 ma21 = true
  · cases hres : env.resolve (round_to_nearest_strike lc.close 50 - 200) with
    | none =>
      right
      left
      simp [entryPhase, hma, hres]
    | some oid =>
      by_cases hoid : oid = 0
      · right
        left
        simp [entryPhase, hma, hres, hoid]
      · cases paper with
        | true =>
          right
          right
          right
          exact ⟨oid, lc.close, hoid, hma,
            by simp [entryPhase, hma, hres, hoid], fun _ => rfl⟩
        | false =>
          cases hbuy : env.buyFill with
          | none =>
            right
            right
            left
            exact ⟨oid, rfl, by simp [entryPhase, hma, hres, hoid, hbuy]⟩
          | some fill =>
            right
            right
            right
            exact ⟨oid, fill, hoid, hma,
              by simp [entryPhase, hma, hres, hoid, hbuy], by simp⟩
  · left
    refine ⟨by simp [entryPhase, hma], by simpa using hma⟩

/-- Frame facts about the trailing-stop block: it never touches the
aggregator or the traded-candle marker, emits no orders in paper mode, and
only ever reports quote or sell failures. -/
theorem trailingPhase_frame (paper : Bool) (lot : ℕ) (env : Env) (st : BotState) :
    (trailingPhase paper lot env st).1.agg = st.agg
    ∧ (trailingPhase paper lot env st).1.traded_candle = st.traded_candle
    ∧ (paper = true → (trailingPhase paper lot env st).2.1 = [])
    ∧ ErrEvent.optionNotFound ∉ (trailingPhase paper lot env st).2.2.1
    ∧ ErrEvent.buyFailed ∉ (trailingPhase paper lot env st).2.2.1 := by
  by_cases hc : (truthyN st.bought_option_id && truthyQ st.entry_price
      && truthyQ st.sl_price) = true
  · cases paper with
    | true =>
      simp only [trailingPhase, hc, if_pos, if_true]
      split <;> split <;> simp
    | false =>
      cases hq : env.quoteLtp with
      | none => simp [trailingPhase, hc, hq]
      | some ltp =>
        simp only [trailingPhase, hc, hq, if_true, Bool.false_eq_true, if_false]
        split
        · cases hs : env.sellFill <;> simp [hs]
        · simp
  · simp [trailingPhase, hc]

/-- Master facts about one loop iteration: the aggregator always advances by
exactly the tick's update; the traded-candle marker changes exactly on entry
fills, which happen only on an untraded last closed candle with a true
crossover; paper mode emits no orders; entry failures leave the trade state
untouched. -/
theorem processTick_facts (paper : Bool) (lot : ℕ) (env : Env) (st : BotState)
    (t : ℕ) (p : ℚ) :
    (processTick paper lot env st t p).state.agg = st.agg.update t p
    ∧ ((processTick paper lot env st t p).entry_at = none →
        (processTick paper lot env st t p).state.traded_candle = st.traded_candle)
    ∧ (∀ ts, (processTick paper lot env st t p).entry_at = some ts →
        st.traded_candle ≠ some ts
        ∧ (processTick paper lot env st t p).state.traded_candle = some ts
        ∧ (∃ lc, (st.agg.update t p).get_candles.dropLast.getLast? = some lc
            ∧ lc.timestamp = ts
            ∧ maCond (botMAs ((st.agg.update t p).get_candles)).1
                (botMAs ((st.agg.update t p).get_candles)).2 = true)
        ∧ ¬ (st.agg.update t p).get_candles.length < 21)
    ∧ (paper = true → (processTick paper lot env st t p).orders = [])
    ∧ ((ErrEvent.optionNotFound ∈ (processTick paper lot env st t p).errors
        ∨ ErrEvent.buyFailed ∈ (processTick paper lot env st t p).errors) →
        (processTick paper lot env st t p).state.traded_candle = st.traded_candle
        ∧ (processTick paper lot env st t p).state.bought_option_id = st.bought_option_id
        ∧ (processTick paper lot env st t p).state.entry_price = st.entry_price
        ∧ (processTick paper lot env st t p).state.sl_price = st.sl_price
        ∧ (processTick paper lot env st t p).state.max_price = st.max_price
        ∧ (processTick paper lot env st t p).entry_at = none
        ∧ (∀ lc2, (st.agg.update t p).get_candles.dropLast.getLast? = some lc2 →
            st.traded_candle ≠ some lc2.timestamp)) := by
  by_cases h1 : (st.agg.update t p).get_candles.length < 21
  · simp [processTick, h1]
  · cases hlc : (st.agg.update t p).get_candles.dropLast.getLast? with
    | none => simp [processTick, h1, hlc]
    | some lc =>
      by_cases htr : st.traded_candle = some lc.timestamp
      · simp [processTick, h1, hlc, htr]
      · rcases entryPhase_cases paper lot env { st with agg := st.agg.update t p } lc
            (botMAs ((st.agg.update t p).get_candles)).1
            (botMAs ((st.agg.update t p).get_candles)).2 with
          ⟨heq, hmc⟩ | heq | ⟨oid, hpf, heq⟩ | ⟨oid, fill, hoid, hmc, heq, hpp⟩
        · have hf := trailingPhase_frame paper lot env { st with agg := st.agg.update t p }
          refine ⟨?_, ?_, ?_, ?_, ?_⟩
          · simp [processTick, h1, hlc, htr, heq, hf.1]
          · simp [processTick, h1, hlc, htr, heq, hf.2.1]
          · simp [processTick, h1, hlc, htr, heq]
          · intro hp
            simp [processTick, h1, hlc, htr, heq, hf.2.2.1 hp]
          · intro herr
            exfalso
            simp only [processTick, h1, hlc, htr, heq] at herr
            simp at herr
            rcases herr with h2 | h2
            · exact hf.2.2.2.1 h2
            · exact hf.2.2.2.2 h2
        · refine ⟨?_, ?_, ?_, ?_, ?_⟩ <;>
            simp [processTick, h1, hlc, htr, heq]
        · subst hpf
          refine ⟨?_, ?_, ?_, ?_, ?_⟩ <;>
            simp [processTick, h1, hlc, htr, heq]
        · have hf := trailingPhase_frame paper lot env
            ({ st with agg := st.agg.update t p, traded_candle := some lc.timestamp,
                       bought_option_id := some oid, entry_price := some fill,
                       sl_price := some (fill * (95 / 100)), max_price := some fill } : BotState)
          refine ⟨?_, ?_, ?_, ?_, ?_⟩
          · simp [processTick, h1, hlc, htr, heq, hf.1]
          · simp [processTick, h1, hlc, htr, heq]
          · intro ts hts
            have hts2 : lc.timestamp = ts := by
              simpa [processTick, h1, hlc, htr, heq] using hts
            refine ⟨?_, ?_, ⟨lc, rfl, hts2, hmc⟩, h1⟩
            · rw [← hts2]
              exact htr
            · rw [← hts2]
              simp [processTick, h1, hlc, htr, heq, hf.2.1]
          · intro hp
            subst hp
            simp [processTick, h1, hlc, htr, heq, hf.2.2.1 rfl]
          · intro herr
            exfalso
            simp only [processTick, h1, hlc, htr, heq] at herr
            simp at herr
            rcases herr with h2 | h2
            · exact hf.2.2.2.1 h2
            · exact hf.2.2.2.2 h2

/-- A crossover can only be declared when at least 21 rows survive the
`iloc[:-1]` drop, since otherwise the 21-row rolling mean is undefined. -/
theorem maCond_true_needs (candles : List Candle)
    (h : maCond (botMAs candles).1 (botMAs candles).2 = true) :
    21 ≤ candles.dropLast.length := by
  by_contra hlt
  have h2 : (botMAs candles).2 = none := by
    simp only [botMAs, rollingMeanLast, List.length_map]
    rw [if_pos (by omega)]
  rw [h2, maCond_none] at h
  simp at h

/-- Claim C4: with an open candle present and at least 21 closed candles,
`iloc[:-1]` drops exactly the open candle, and the two rolling means read at
the last row are the arithmetic means of the last 10 and last 21
closed-candle closes; the open candle's contents never matter. -/
theorem ma_closed_candles_only (s : Aggregator) (hd : s.candle_data ≠ [])
    (h21 : 21 ≤ s.completed_candles.length) :
    s.get_candles.dropLast = s.completed_candles
    ∧ (botMAs s.get_candles).1
        = some (meanOfLast 10 (s.completed_candles.map Candle.close))
    ∧ (botMAs s.get_candles).2
        = some (meanOfLast 21 (s.completed_candles.map Candle.close))
    ∧ (∀ d2 : List (ℕ × ℚ), d2 ≠ [] →
        botMAs (Aggregator.get_candles { s with candle_data := d2 })
          = botMAs s.get_candles) := by
  have hdl : s.get_candles.dropLast = s.completed_candles := by
    rw [get_candles_of_ne s hd, List.dropLast_concat]
  refine ⟨hdl, ?_, ?_, ?_⟩
  · simp only [botMAs, hdl, rollingMeanLast, meanOfLast, List.length_map]
    rw [if_neg (by omega)]
  · simp only [botMAs, hdl, rollingMeanLast, meanOfLast, List.length_map]
    rw [if_neg (by omega)]
  · intro d2 hd2
    have hdl2 : (Aggregator.get_candles { s with candle_data := d2 }).dropLast
        = s.completed_candles := by
      rw [get_candles_of_ne _ (by simpa using hd2)]
      exact List.dropLast_concat
    simp only [botMAs, hdl, hdl2]

/-- Witness for C4: after 22 one-tick windows, both rolling means equal the
recomputed means of the closed-candle closes (namely 100). -/
theorem ma_closed_candles_only_witness :
    (ingest (initAgg 5) (flatTicks 22)).candle_data ≠ []
    ∧ 21 ≤ (ingest (initAgg 5) (flatTicks 22)).completed_candles.length
    ∧ (botMAs (ingest (initAgg 5) (flatTicks 22)).get_candles).1
        = some (meanOfLast 10
            ((ingest (initAgg 5) (flatTicks 22)).completed_candles.map Candle.close))
    ∧ (botMAs (ingest (initAgg 5) (flatTicks 22)).get_candles).2
        = some (meanOfLast 21
            ((ingest (initAgg 5) (flatTicks 22)).completed_candles.map Candle.close)) := by
  have h := ma_closed_candles_only (ingest (initAgg 5) (flatTicks 22))
    (by decide) (by decide)
  exact ⟨by decide, by decide, h.2.1, h.2.2.1⟩

/-- Counterexample to claim C3 as stated: with exactly 20 closed candles (and
the always-present open candle) the insufficient-data branch is not taken —
`len(candles_df) < 21` counts the open candle — and the crossover comparison
is evaluated (yielding no signal only because the 21-row mean is undefined). -/
theorem cold_start_counterexample :
    (ingest (initAgg 5) (flatTicks 21)).completed_candles.length = 20
    ∧ evalSignal (ingest (initAgg 5) (flatTicks 21)).get_candles = EvalResult.noSignal
    ∧ evalSignal (ingest (initAgg 5) (flatTicks 21)).get_candles ≠ EvalResult.waiting := by
  exact ⟨by decide, by decide, by decide⟩

/-- Claim C3 (amended): the insufficient-data gate counts the always-present
open candle, so evaluation abstains with the waiting status whenever fewer
than 20 candles are closed; with fewer than 21 closed candles no crossover
signal can fire (at exactly 20 the comparison is made but its slow mean is
undefined), and the tick loop attempts no entry. -/
theorem cold_start_amended (s : Aggregator) (paper : Bool) (lot : ℕ) (env : Env)
    (st : BotState) (t : ℕ) (p : ℚ) :
    (s.candle_data ≠ [] ∧ s.completed_candles.length < 20 →
        evalSignal s.get_candles = EvalResult.waiting)
    ∧ (s.candle_data ≠ [] ∧ s.completed_candles.length < 21 →
        ∀ ts c, evalSignal s.get_candles ≠ EvalResult.signal ts c)
    ∧ ((st.agg.update t p).completed_candles.length < 21 →
        (processTick paper lot env st t p).entry_at = none) := by
  refine ⟨?_, ?_, ?_⟩
  · intro ⟨hd, hn⟩
    have hlen : s.get_candles.length < 21 := by
      rw [get_candles_of_ne s hd]
      simp
      omega
    simp [evalSignal, hlen]
  · intro ⟨hd, hn⟩ ts c
    have hlen : s.get_candles.length = s.completed_candles.length + 1 := by
      rw [get_candles_of_ne s hd]
      simp
    by_cases hlt : s.get_candles.length < 21
    · simp [evalSignal, hlt]
    · have hdl : s.get_candles.dropLast = s.completed_candles := by
        rw [get_candles_of_ne s hd, List.dropLast_concat]
      have hma : (botMAs s.get_candles).2 = none := by
        simp only [botMAs, rollingMeanLast, hdl, List.length_map]
        rw [if_pos (by omega)]
      unfold evalSignal
      rw [if_neg hlt]
      cases hg : s.get_candles.dropLast.getLast? with
      | none => simp
      | some lc =>
        simp [hma, maCond_none]
  · intro hn
    cases he : (processTick paper lot env st t p).entry_at with
    | none => rfl
    | some ts =>
      exfalso
      obtain ⟨-, -, ⟨lc, hlc, -, hmc⟩, -⟩ := (processTick_facts paper lot env st t p).2.2.1 ts he
      have h21 := maCond_true_needs _ hmc
      have hdl : (st.agg.update t p).get_candles.dropLast
          = (st.agg.update t p).completed_candles := by
        rw [get_candles_of_ne _ (update_data_ne_nil st.agg t p), List.dropLast_concat]
      rw [hdl] at h21
      omega

/-- Witness for C3 (amended): with 19 closed candles the gate abstains; with
20 closed candles no signal fires; the first tick from the initial state
attempts no entry. -/
theorem cold_start_amended_witness :
    ((ingest (initAgg 5) (flatTicks 20)).candle_data ≠ []
      ∧ (ingest (initAgg 5) (flatTicks 20)).completed_candles.length < 20)
    ∧ evalSignal (ingest (initAgg 5) (flatTicks 20)).get_candles = EvalResult.waiting
    ∧ ((ingest (initAgg 5) (flatTicks 21)).candle_data ≠ []
      ∧ (ingest (initAgg 5) (flatTicks 21)).completed_candles.length < 21)
    ∧ evalSignal (ingest (initAgg 5) (flatTicks 21)).get_candles ≠ EvalResult.signal 0 100
    ∧ (processTick true 50 defaultEnv initState 0 100).entry_at = none := by
  have h19 := cold_start_amended (ingest (initAgg 5) (flatTicks 20)) true 50 defaultEnv
    initState 0 100
  have h20 := cold_start_amended (ingest (initAgg 5) (flatTicks 21)) true 50 defaultEnv
    initState 0 100
  exact ⟨⟨by decide, by decide⟩, h19.1 ⟨by decide, by decide⟩,
    ⟨by decide, by decide⟩, h20.2.1 ⟨by decide, by decide⟩ 0 100,
    h19.2.2 (by decide)⟩

/-- Claim C1 evaluated on the code: when the stop-loss triggers and the live
sell order fails, the failure is surfaced, but the position variables are
nonetheless all cleared — the bot falls back to flat instead of retaining
the position. -/
theorem exit_failure_clears_position :
    (processTick false 50 c1env c1state 6000000001 100).orders = [Order.sell 7 50]
    ∧ (processTick false 50 c1env c1state 6000000001 100).errors = [ErrEvent.sellFailed]
    ∧ (processTick false 50 c1env c1state 6000000001 100).state.bought_option_id = none
    ∧ (processTick false 50 c1env c1state 6000000001 100).state.entry_price = none
    ∧ (processTick false 50 c1env c1state 6000000001 100).state.sl_price = none
    ∧ (processTick false 50 c1env c1state 6000000001 100).state.max_price = none := by
  exact ⟨by decide, by decide, by decide, by decide, by decide, by decide⟩

/-- Claim C8: if the entry attempt fails (option unresolved or buy order
rejected), the entry block changes nothing and reports no fill; at the loop
level, an entry-failure error leaves the traded-candle marker and all
position variables exactly as before the tick, no entry is recorded, and the
signal candle remains untraded (eligible for a retried entry). -/
theorem entry_failure_no_position_no_mark (paper : Bool) (lot : ℕ) (env : Env)
    (st : BotState) (t : ℕ) (p : ℚ) (lc : Candle) (ma10 ma21 : Option ℚ) :
    ((entryPhase paper lot env st lc ma10 ma21).2.2.1 ≠ [] →
        (entryPhase paper lot env st lc ma10 ma21).1 = st
        ∧ (entryPhase paper lot env st lc ma10 ma21).2.2.2.1 = none)
    ∧ ((ErrEvent.optionNotFound ∈ (processTick paper lot env st t p).errors
        ∨ ErrEvent.buyFailed ∈ (processTick paper lot env st t p).errors) →
        (processTick paper lot env st t p).state.traded_candle = st.traded_candle
        ∧ (processTick paper lot env st t p).state.bought_option_id = st.bought_option_id
        ∧ (processTick paper lot env st t p).state.entry_price = st.entry_price
        ∧ (processTick paper lot env st t p).state.sl_price = st.sl_price
        ∧ (processTick paper lot env st t p).state.max_price = st.max_price
        ∧ (processTick paper lot env st t p).entry_at = none
        ∧ (∀ lc2, (st.agg.update t p).get_candles.dropLast.getLast? = some lc2 →
            (processTick paper lot env st t p).state.traded_candle
              ≠ some lc2.timestamp)) := by
  constructor
  · intro herr
    rcases entryPhase_cases paper lot env st lc ma10 ma21 with
      ⟨heq, -⟩ | heq | ⟨oid, -, heq⟩ | ⟨oid, fill, -, -, heq, -⟩
    · rw [heq] at herr
      simp at herr
    · rw [heq]
      exact ⟨rfl, rfl⟩
    · rw [heq]
      exact ⟨rfl, rfl⟩
    · rw [heq] at herr
      simp at herr
  · intro herr
    obtain ⟨h1, h2, h3, h4, h5, h6, h7⟩ :=
      (processTick_facts paper lot env st t p).2.2.2.2 herr
    exact ⟨h1, h2, h3, h4, h5, h6, fun lc2 hlc2 => by rw [h1]; exact h7 lc2 hlc2⟩

/-- Witness for C8: with a true crossover but an unresolvable option, the
entry block reports the failure and leaves the state untouched with no fill. -/
theorem entry_failure_witness :
    (entryPhase false 50 defaultEnv initState wCandle (some 100) (some 100)).2.2.1 ≠ []
    ∧ (entryPhase false 50 defaultEnv initState wCandle (some 100) (some 100)).1 = initState
    ∧ (entryPhase false 50 defaultEnv initState wCandle (some 100) (some 100)).2.2.2.1
        = none := by
  have h := entry_failure_no_position_no_mark false 50 defaultEnv initState 0 100 wCandle
    (some 100) (some 100)
  have hne : (entryPhase false 50 defaultEnv initState wCandle (some 100) (some 100)).2.2.1
      ≠ [] := by decide
  exact ⟨hne, (h.1 hne).1, (h.1 hne).2⟩

theorem runFold_paper_orders (lot : ℕ) (ins : List TickIn) (r : RunOut) :
    (ins.foldl (runStep true lot) r).orders = r.orders := by
  induction ins generalizing r with
  | nil => rfl
  | cons i rest ih =>
    rw [List.foldl_cons, ih]
    simp [runStep, (processTick_facts true lot i.env r.state i.t i.p).2.2.2.1 rfl]

/-- Claim C10: in paper mode no order is ever submitted to the gateway over
any run; a paper entry fill records the signal candle's close as the entry
price; the trailing block submits no order and any logged paper exit fill is
exactly the simulated quote. -/
theorem paper_mode_no_orders (lot : ℕ) (ins : List TickIn) (env : Env)
    (st : BotState) (lc : Candle) (ma10 ma21 : Option ℚ) (ts : ℕ) :
    (runBot true lot st ins).orders = []
    ∧ ((entryPhase true lot env st lc ma10 ma21).2.2.2.1 = some ts →
        ts = lc.timestamp
        ∧ (entryPhase true lot env st lc ma10 ma21).1.entry_price = some lc.close)
    ∧ (trailingPhase true lot env st).2.1 = []
    ∧ (∀ x ∈ (trailingPhase true lot env st).2.2.2,
        x = (if st.max_price.getD 0 < st.entry_price.getD 0 * (102 / 100)
             then st.max_price.getD 0 + 1 else st.max_price.getD 0 - 1)) := by
  refine ⟨?_, ?_, (trailingPhase_frame true lot env st).2.2.1 rfl, ?_⟩
  · unfold runBot
    rw [runFold_paper_orders]
  · intro hts
    rcases entryPhase_cases true lot env st lc ma10 ma21 with
      ⟨heq, -⟩ | heq | ⟨oid, hpf, -⟩ | ⟨oid, fill, -, -, heq, hpp⟩
    · rw [heq] at hts
      simp at hts
    · rw [heq] at hts
      simp at hts
    · simp at hpf
    · rw [heq] at hts
      simp only [Option.some.injEq] at hts
      rw [heq, ← hts, hpp rfl]
      exact ⟨rfl, rfl⟩
  · intro x hx
    by_cases hc : (truthyN st.bought_option_id && truthyQ st.entry_price
        && truthyQ st.sl_price) = true
    · simp only [trailingPhase, hc, if_true] at hx
      split at hx <;> split at hx <;> simp_all <;>
        rw [if_neg (by linarith)]
    · simp [trailingPhase, hc] at hx

/-- Witness for C10: a one-tick paper run emits no orders, and a concrete
paper entry (crossover true, option resolved) fills at the signal candle's
close. -/
theorem paper_mode_no_orders_witness :
    (runBot true 50 initState [⟨0, 100, defaultEnv⟩]).orders = []
    ∧ (entryPhase true 50 wEnv initState wCandle (some 100) (some 100)).2.2.2.1 = some 0
    ∧ (0 : ℕ) = wCandle.timestamp
    ∧ (entryPhase true 50 wEnv initState wCandle (some 100) (some 100)).1.entry_price
        = some wCandle.close
    ∧ (trailingPhase true 50 wEnv initState).2.1 = [] := by
  have h := paper_mode_no_orders 50 [⟨0, 100, defaultEnv⟩] wEnv initState wCandle
    (some 100) (some 100) 0
  have hts : (entryPhase true 50 wEnv initState wCandle (some 100) (some 100)).2.2.2.1
      = some 0 := by decide
  exact ⟨h.1, hts, (h.2.1 hts).1, (h.2.1 hts).2, h.2.2.1⟩

theorem lastClosed_update_mono (s : Aggregator) (t t' : ℕ) (p : ℚ)
    (h : AggInv5 s t) (b : ℕ) (hb : lastClosedTs s = some b) :
    ∃ b2, lastClosedTs (s.update t' p) = some b2 ∧ b ≤ b2 := by
  obtain ⟨hI, hcur, hdata, hpw⟩ := h
  by_cases heq : s.current_candle_start = some (candleStart s.interval_minutes t')
  · rw [update_same_window s t' p heq]
    exact ⟨b, hb, le_refl b⟩
  · rw [update_new_window s t' p heq]
    refine ⟨candleStart 5 t, ?_, ?_⟩
    · unfold lastClosedTs completedStarts
      simp only [if_neg hdata, List.map_append, List.map_cons, List.map_nil]
      rw [List.getLast?_concat]
      simp [mkCandle, hcur]
    · have hbm : b ∈ completedStarts s := List.mem_of_mem_getLast? hb
      have := (List.pairwise_append.mp hpw).2.2 b hbm (candleStart 5 t) (by simp)
      exact le_of_lt this

theorem lastClosedTs_of_dropLast (s : Aggregator) (hd : s.candle_data ≠ [])
    (lc : Candle) (h : s.get_candles.dropLast.getLast? = some lc) :
    lastClosedTs s = some lc.timestamp := by
  rw [get_candles_of_ne s hd, List.dropLast_concat] at h
  unfold lastClosedTs completedStarts
  rw [List.getLast?_map, h]
  rfl

theorem pairwise_lt_le_getLast {l : List ℕ} {e el : ℕ}
    (hp : List.Pairwise (· < ·) l) (he : e ∈ l) (hl : l.getLast? = some el) :
    e ≤ el := by
  induction l with
  | nil => simp at he
  | cons a l ih =>
    cases l with
    | nil =>
      simp at he hl
      rw [he, hl]
    | cons b l2 =>
      rw [List.getLast?_cons_cons] at hl
      rcases List.mem_cons.mp he with rfl | he2
      · exact le_of_lt ((List.pairwise_cons.mp hp).1 el (List.mem_of_mem_getLast? hl))
      · exact ih (List.pairwise_cons.mp hp).2 he2 hl

theorem runInv_step (paper : Bool) (lot : ℕ) (r : RunOut) (i : TickIn) (t : ℕ)
    (h : RunInv r t) (hle : t ≤ i.t) : RunInv (runStep paper lot r i) i.t := by
  obtain ⟨hAgg, hpw, htr, hbd⟩ := h
  have hf := processTick_facts paper lot i.env r.state i.t i.p
  have hagg2 : (runStep paper lot r i).state.agg = r.state.agg.update i.t i.p := hf.1
  have hA : AggInv5 (r.state.agg.update i.t i.p) i.t :=
    aggInv_update _ t i.t i.p hAgg hle
  cases he : (processTick paper lot i.env r.state i.t i.p).entry_at with
  | none =>
    have hent : (runStep paper lot r i).entries = r.entries := by
      simp [runStep, he]
    refine ⟨by rw [hagg2]; exact hA, by rw [hent]; exact hpw, ?_, ?_⟩
    · rw [hent]
      show (processTick paper lot i.env r.state i.t i.p).state.traded_candle = _
      rw [hf.2.1 he, htr]
    · intro e hee
      rw [hent] at hee
      obtain ⟨b, hbs, heb⟩ := hbd e hee
      obtain ⟨b2, hb2, hbb2⟩ := lastClosed_update_mono r.state.agg t i.t i.p hAgg b hbs
      refine ⟨b2, ?_, le_trans heb hbb2⟩
      show lastClosedTs (runStep paper lot r i).state.agg = some b2
      rw [hagg2]
      exact hb2
  | some ts =>
    obtain ⟨hne, htr2, ⟨lc, hlc, hlcts, -⟩, -⟩ := hf.2.2.1 ts he
    have hlast : lastClosedTs (r.state.agg.update i.t i.p) = some lc.timestamp :=
      lastClosedTs_of_dropLast _ (update_data_ne_nil _ _ _) lc hlc
    have hent : (runStep paper lot r i).entries = r.entries ++ [ts] := by
      simp [runStep, he]
    have hcross : ∀ e ∈ r.entries, e < ts := by
      intro e hee
      have hnil : r.entries ≠ [] := by
        intro h0
        rw [h0] at hee
        simp at hee
      obtain ⟨el, hel⟩ := Option.ne_none_iff_exists'.mp
        (mt List.getLast?_eq_none_iff.mp hnil)
      have helmem : el ∈ r.entries := List.mem_of_mem_getLast? hel
      have hel_le : el ≤ ts := by
        obtain ⟨b, hbs, heb⟩ := hbd el helmem
        obtain ⟨b2, hb2, hbb2⟩ := lastClosed_update_mono r.state.agg t i.t i.p hAgg b hbs
        rw [hlast] at hb2
        have : b2 = lc.timestamp := by
          simpa using hb2.symm
        rw [hlcts] at this
        exact le_trans heb (this ▸ hbb2)
      have hel_ne : el ≠ ts := by
        intro h0
        apply hne
        rw [htr, hel, h0]
      exact lt_of_le_of_lt (pairwise_lt_le_getLast hpw hee hel)
        (lt_of_le_of_ne hel_le hel_ne)
    refine ⟨by rw [hagg2]; exact hA, ?_, ?_, ?_⟩
    · rw [hent, List.pairwise_append]
      exact ⟨hpw, by simp, fun a ha b hb => by
        simp only [List.mem_singleton] at hb
        rw [hb]
        exact hcross a ha⟩
    · rw [hent, List.getLast?_concat]
      exact htr2
    · intro e hee
      rw [hent] at hee
      refine ⟨lc.timestamp, ?_, ?_⟩
      · show lastClosedTs (runStep paper lot r i).state.agg = some lc.timestamp
        rw [hagg2]
        exact hlast
      · rcases List.mem_append.mp hee with h2 | h2
        · rw [hlcts]
          exact le_of_lt (hcross e h2)
        · simp only [List.mem_singleton] at h2
          rw [h2, hlcts]

theorem runInv_fold (paper : Bool) (lot : ℕ) (ins : List TickIn) (r : RunOut) (t : ℕ)
    (h : RunInv r t) (hch : List.Chain' (· ≤ ·) (t :: ins.map TickIn.t)) :
    ∃ t1, RunInv (ins.foldl (runStep paper lot) r) t1 := by
  induction ins generalizing r t with
  | nil => exact ⟨t, h⟩
  | cons i rest ih =>
    rw [List.foldl_cons]
    rw [List.map_cons, List.chain'_cons] at hch
    exact ih (runStep paper lot r i) i.t (runInv_step paper lot r i t h hch.1) hch.2

theorem runInv_first (paper : Bool) (lot : ℕ) (i : TickIn) :
    RunInv (runStep paper lot ⟨initState, [], []⟩ i) i.t := by
  have h1 : (initState.agg.update i.t i.p).get_candles.length < 21 := by
    show ((initAgg 5).update i.t i.p).get_candles.length < 21
    rw [update_first, get_candles_of_ne _ (by simp)]
    simp
  have hpt : processTick paper lot i.env initState i.t i.p
      = ⟨{ initState with agg := initState.agg.update i.t i.p }, [], [], none, []⟩ := by
    simp [processTick, h1]
  refine ⟨?_, ?_, ?_, ?_⟩
  · show AggInv5 (processTick paper lot i.env initState i.t i.p).state.agg i.t
    rw [hpt]
    exact aggInv_first i.t i.p
  · simp [runStep, hpt]
  · have hent : (runStep paper lot ⟨initState, [], []⟩ i).entries = [] := by
      simp [runStep, hpt]
    rw [hent]
    show (processTick paper lot i.env initState i.t i.p).state.traded_candle = none
    rw [hpt]
    rfl
  · intro e hee
    simp [runStep, hpt] at hee

/-- Claim C7: over any run of the tick loop from the initial state whose
tick timestamps are nondecreasing (the in-order feed), the candle starts of
the recorded entry fills are strictly increasing — hence pairwise distinct:
at most one entry occurs per distinct candle start, and once a candle start
is recorded as traded no later evaluation of it enters again. -/
theorem at_most_one_entry_per_candle (paper : Bool) (lot : ℕ) (ins : List TickIn)
    (hch : List.Chain' (· ≤ ·) (ins.map TickIn.t)) :
    List.Pairwise (· ≠ ·) (runBot paper lot initState ins).entries := by
  cases ins with
  | nil => simp [runBot]
  | cons i rest =>
    unfold runBot
    rw [List.foldl_cons]
    rw [List.map_cons] at hch
    obtain ⟨t1, hinv⟩ :=
      runInv_fold paper lot rest (runStep paper lot ⟨initState, [], []⟩ i) i.t
        (runInv_first paper lot i) hch
    exact hinv.2.1.imp (fun hab => ne_of_lt hab)

/-- Witness for C7: a two-tick in-order paper run has pairwise-distinct entry
starts. -/
theorem at_most_one_entry_witness :
    List.Chain' (· ≤ ·)
      (([⟨0, 100, defaultEnv⟩, ⟨300000000, 100, defaultEnv⟩] : List TickIn).map TickIn.t)
    ∧ List.Pairwise (· ≠ ·)
        (runBot true 50 initState
          [⟨0, 100, defaultEnv⟩, ⟨300000000, 100, defaultEnv⟩]).entries := by
  have hch : List.Chain' (· ≤ ·)
      (([⟨0, 100, defaultEnv⟩, ⟨300000000, 100, defaultEnv⟩] : List TickIn).map TickIn.t) := by
    norm_num [List.chain'_cons, List.chain'_singleton]
  exact ⟨hch, at_most_one_entry_per_candle true 50 _ hch⟩

theorem decNat_encNat (n : ℕ) : decNat (encNat n) = some n := by
  simp [decNat, encNat, Rat.num_natCast, Rat.den_natCast]

theorem decCandle_encCandle (c : Candle) : decCandle (encCandle c) = some c := by
  cases c
  simp [decCandle, encCandle, decNat_encNat, encNat, decNat,
    Rat.num_natCast, Rat.den_natCast]

theorem decCandles_enc (l : List Candle) :
    decCandles (l.map encCandle) = some l := by
  induction l with
  | nil => rfl
  | cons c l ih =>
    simp [decCandles, decCandle_encCandle, ih]

theorem decPos_encPos (p : Position) : decPos (encPos p) = some p := by
  cases p
  simp [decPos, encPos, decNat_encNat, encNat, decNat,
    Rat.num_natCast, Rat.den_natCast]

/-- Claim C9: the persist/restore round-trip is the identity — saving any
BotState snapshot and loading it back returns a snapshot with the identical
candle sequence, position, and traded-candle marker — and loading from a
store that was never written returns absent. -/
theorem persistence_roundtrip (s : BotSnapshot) (store : Option JVal) :
    load (save store s) = some s ∧ load emptyStore = none := by
  refine ⟨?_, rfl⟩
  show decSnapshot (encSnapshot s) = some s
  cases s with
  | mk candles pos ltc =>
    cases pos <;> cases ltc <;>
      simp [encSnapshot, decSnapshot, decCandles_enc, encPos, encNat, decPos, decNat,
        Rat.num_natCast, Rat.den_natCast, Int.toNat_natCast, Int.natCast_nonneg]
